import Mathlib

/-! Verification development for the Chatly WebSocket relay server
(`src/websocket-server.js`).  The server keeps four in-memory tables —
`userSockets` (Connection Registry), `onlineUsers` (Presence Store),
`userConversations` (Membership Directory) and `pendingDeliveries`
(Pending Delivery Ledger) — and mutates them from socket event handlers.
JS `Map`s are embedded as insertion-ordered association lists (`JMap`),
JS `Set`s as insertion-ordered duplicate-free lists, and every handler as
a pure function from the server state (plus the triggering socket id and
payload) to the new state together with the ordered list of emissions it
performs. -/

namespace Chatly

abbrev UserId := String
abbrev SocketId := String
abbrev ConvId := String
abbrev MsgId := String
abbrev RoomId := String

/-- Value stored in the `onlineUsers` map: `{ socketId, lastSeen }`. -/
structure UserData where
  socketId : SocketId
  lastSeen : Nat
deriving DecidableEq, Repr

/-- CLEANUP_INTERVAL = 5 * 60 * 1000 (ms), the sweeper period. -/
def CLEANUP_INTERVAL : Nat := 5 * 60 * 1000

/-- STALE_TIMEOUT = 10 * 60 * 1000 (ms), the staleness threshold. -/
def STALE_TIMEOUT : Nat := 10 * 60 * 1000

namespace JMap

variable {α β : Type} [DecidableEq α]

/-- JS `Map.get`: first entry with the given key (JS maps never hold a key twice). -/
def get? : List (α × β) → α → Option β
  | [], _ => none
  | e :: rest, k => if e.1 = k then some e.2 else get? rest k

/-- JS `Map.set`: replace in place when the key is present, else append at the end. -/
def set : List (α × β) → α → β → List (α × β)
  | [], k, v => [(k, v)]
  | e :: rest, k, v => if e.1 = k then (k, v) :: rest else e :: set rest k v

/-- JS `Map.delete`. -/
def del (l : List (α × β)) (k : α) : List (α × β) :=
  l.filter (fun e => decide (e.1 ≠ k))

/-- Update the value stored at a key in place (used for field mutation such as
`onlineUsers.get(u).lastSeen = now`). -/
def modify : List (α × β) → α → (β → β) → List (α × β)
  | [], _, _ => []
  | e :: rest, k, f => if e.1 = k then (k, f e.2) :: rest else e :: modify rest k f

end JMap

namespace JSet

/-- JS `Set.add`: append when not already present (insertion order preserved). -/
def insert {α : Type} [DecidableEq α] (l : List α) (a : α) : List α :=
  if a ∈ l then l else l ++ [a]

end JSet

/-- Keys of an association list are pairwise distinct.  Every JS `Map` has this
property, and every `JMap` operation preserves it. -/
def NodupKeys {α β : Type} (l : List (α × β)) : Prop :=
  (l.map Prod.fst).Nodup

/-! Server-to-client emissions.  `io.to(room).emit(event, payload)` is recorded
as one constructor per event name; the `target` of a point-to-point emission is
the socket-id room, a conversation broadcast targets the conversation room.
The 100 ms delayed `message:status` broadcast scheduled by `setTimeout` in the
`message:send` handler is recorded with its own constructor `scheduledStatus`
to keep it distinguishable from an immediate status emission. -/
inductive Emission where
  | messageNew (target : RoomId) (mid : MsgId)
  | messageStatus (conv : ConvId) (mid : MsgId) (status : String)
  | scheduledStatus (conv : ConvId) (mid : MsgId)
  | usersOnlineList (target : SocketId) (users : List UserId)
  | userStatus (uid : UserId) (status : String)
  | userLastSeen (uid : UserId) (t : Nat)
  | pong (target : SocketId)
  | userTyping (conv : ConvId) (uid : UserId)
  | userStopTyping (conv : ConvId) (uid : UserId)
  | unreadUpdated (conv : ConvId) (uid : Option UserId)
  | messageEdited (conv : ConvId) (mid : MsgId) (content : String)
  | messageDeleted (conv : ConvId) (mid : MsgId)
  | reactionUpdate (conv : ConvId) (mid : MsgId)
  | callIncoming (target : SocketId) (callId : String) (callerId : Option UserId)
  | callAnswered (target : SocketId) (callId : String)
  | callIceCandidate (target : SocketId) (senderId : Option UserId)
  | callRejected (target : SocketId) (callId : String)
  | callEnded (target : SocketId) (callId : String)
deriving DecidableEq, Repr

/-- Payload of `message:send`: `data.conversationId`, `data._id` (here `mid`)
and `data.participants`.  The rest of the payload is uninterpreted and irrelevant to
the routing decisions. -/
structure MsgData where
  conversationId : ConvId
  mid : MsgId
  participants : List UserId
deriving DecidableEq, Repr

/-- The Pending Delivery Ledger `pendingDeliveries`:
`conversationId -> (messageId -> Set of userId)`. -/
abbrev Ledger := List (ConvId × List (MsgId × List UserId))

/-- Inner loop shared by `processPendingDeliveries` and
`checkPendingDeliveriesForConversation`: walk the per-conversation
`messageId -> awaiting set` map in order; whenever `pendingUsers.has(userId)`
(false when `socket.userId` is undefined, i.e. `none`), delete the user from
the set, push the message onto `deliveredMessages`, and delete the message
entry when its awaiting set became empty.  Returns the updated map and the
`deliveredMessages` list in iteration order. -/
def scanMessages (uo : Option UserId) :
    List (MsgId × List UserId) → List (MsgId × List UserId) × List MsgId
  | [] => ([], [])
  | (m, us) :: rest =>
    let r := scanMessages uo rest
    match uo with
    | some u =>
      if u ∈ us then
        let us2 := us.erase u
        (if us2.isEmpty then r.1 else (m, us2) :: r.1, m :: r.2)
      else ((m, us) :: r.1, r.2)
    | none => ((m, us) :: r.1, r.2)

/-- Embeds `processPendingDeliveries(userId)` (websocket-server.js lines
325-356): for every conversation, remove the user from every awaiting set
containing them, emit a delivered `message:status` to the conversation room
for every message from which the user was removed, and delete emptied message
entries and emptied conversation entries. -/
def processPendingDeliveries (u : UserId) : Ledger → Ledger × List Emission
  | [] => ([], [])
  | (c, msgs) :: rest =>
    let s := scanMessages (some u) msgs
    let ems := s.2.map (fun m => Emission.messageStatus c m "delivered")
    let r := processPendingDeliveries u rest
    ((if s.1.isEmpty then r.1 else (c, s.1) :: r.1), ems ++ r.2)

/-- Embeds `checkPendingDeliveriesForConversation(conversationId, userId)`
(websocket-server.js lines 359-388): the same reconciliation restricted to one
conversation; `userId` is `socket.userId` and may be unset (`none`). -/
def checkPendingDeliveriesForConversation (c : ConvId) (uo : Option UserId)
    (p : Ledger) : Ledger × List Emission :=
  match JMap.get? p c with
  | none => (p, [])
  | some msgs =>
    let s := scanMessages uo msgs
    let ems := s.2.map (fun m => Emission.messageStatus c m "delivered")
    ((if s.1.isEmpty then JMap.del p c else JMap.set p c s.1), ems)

/-- One offline participant found by the `message:send` handler: create the
conversation entry and the message entry if missing, then add the participant
to the awaiting set. -/
def addPending (p : Ledger) (c : ConvId) (m : MsgId) (pid : UserId) : Ledger :=
  let convPending := (JMap.get? p c).getD []
  let awaiting := (JMap.get? convPending m).getD []
  JMap.set p c (JMap.set convPending m (JSet.insert awaiting pid))

/-- The whole server state: the four tables, plus the transport-owned socket
bindings (`socket.userId` per connected socket) and room membership
(`io.sockets.adapter.rooms`). -/
structure World where
  sockets : List (SocketId × Option UserId)
  rooms : List (RoomId × List SocketId)
  userSockets : List (UserId × SocketId)
  onlineUsers : List (UserId × UserData)
  userConversations : List (UserId × List ConvId)
  pending : Ledger
deriving DecidableEq, Repr

/-- The value of `socket.userId` for a connected socket (`none` while the
socket has not announced `user:online`). -/
def socketUser (w : World) (sid : SocketId) : Option UserId :=
  (JMap.get? w.sockets sid).join

/-- Embeds `socket.join(room)`: the adapter creates the room on first join. -/
def roomJoin (rooms : List (RoomId × List SocketId)) (r : RoomId)
    (sid : SocketId) : List (RoomId × List SocketId) :=
  JMap.set rooms r (JSet.insert ((JMap.get? rooms r).getD []) sid)

/-- Embeds `socket.leave(room)`: the adapter deletes a room once empty. -/
def roomLeave (rooms : List (RoomId × List SocketId)) (r : RoomId)
    (sid : SocketId) : List (RoomId × List SocketId) :=
  match JMap.get? rooms r with
  | none => rooms
  | some l =>
    let l2 := l.erase sid
    if l2.isEmpty then JMap.del rooms r else JMap.set rooms r l2

/-- On disconnect the adapter removes the socket from every room. -/
def roomsDropSocket (rooms : List (RoomId × List SocketId)) (sid : SocketId) :
    List (RoomId × List SocketId) :=
  (rooms.map (fun e => (e.1, e.2.erase sid))).filter (fun e => !e.2.isEmpty)

/-- Embeds the `connection` callback: a new socket with no userId bound. -/
def connectHandler (w : World) (sid : SocketId) : World :=
  { w with sockets := JMap.set w.sockets sid none }

/-- Embeds the `user:online` handler (websocket-server.js lines 66-95):
register the socket in `userSockets`, bind `socket.userId`, join the personal
room, upsert the presence record, create the membership set only when absent,
emit the online-users snapshot and the online broadcast, then run
`processPendingDeliveries`. -/
def userOnline (w : World) (sid : SocketId) (uid : UserId) (now : Nat) :
    World × List Emission :=
  let userSockets2 := JMap.set w.userSockets uid sid
  let sockets2 := JMap.set w.sockets sid (some uid)
  let rooms2 := roomJoin w.rooms uid sid
  let onlineUsers2 := JMap.set w.onlineUsers uid ⟨sid, now⟩
  let userConversations2 :=
    if (JMap.get? w.userConversations uid).isSome then w.userConversations
    else JMap.set w.userConversations uid []
  let pd := processPendingDeliveries uid w.pending
  ({ sockets := sockets2, rooms := rooms2, userSockets := userSockets2,
     onlineUsers := onlineUsers2, userConversations := userConversations2,
     pending := pd.1 },
   Emission.usersOnlineList sid (onlineUsers2.map Prod.fst)
     :: Emission.userStatus uid "online" :: pd.2)

/-- Embeds the `ping` handler: refresh `lastSeen` when the socket has a bound
user with a live presence record, and always answer `pong`. -/
def pingHandler (w : World) (sid : SocketId) (now : Nat) :
    World × List Emission :=
  let w2 :=
    match socketUser w sid with
    | some u =>
      if (JMap.get? w.onlineUsers u).isSome then
        let ou2 := JMap.modify w.onlineUsers u (fun d => { d with lastSeen := now })
        { w with onlineUsers := ou2 }
      else w
    | none => w
  (w2, [Emission.pong sid])

/-- Embeds the `typing:start` handler: pure relay to the conversation room. -/
def typingStart (w : World) (c : ConvId) (u : UserId) : World × List Emission :=
  (w, [Emission.userTyping c u])

/-- Embeds the `typing:stop` handler: pure relay to the conversation room. -/
def typingStop (w : World) (c : ConvId) (u : UserId) : World × List Emission :=
  (w, [Emission.userStopTyping c u])

/-- Embeds the `conversation:join` handler (websocket-server.js lines
114-126): join the conversation room, add the conversation to the membership set of the user when the socket has a bound user with a membership entry, then
run `checkPendingDeliveriesForConversation`. -/
def conversationJoin (w : World) (sid : SocketId) (c : ConvId) :
    World × List Emission :=
  let rooms2 := roomJoin w.rooms c sid
  let uo := socketUser w sid
  let uc2 :=
    match uo with
    | some u =>
      if (JMap.get? w.userConversations u).isSome then
        JMap.modify w.userConversations u (fun s => JSet.insert s c)
      else w.userConversations
    | none => w.userConversations
  let pd := checkPendingDeliveriesForConversation c uo w.pending
  ({ w with rooms := rooms2, userConversations := uc2, pending := pd.1 }, pd.2)

/-- Embeds the `conversation:leave` handler. -/
def conversationLeave (w : World) (sid : SocketId) (c : ConvId) :
    World × List Emission :=
  let rooms2 := roomLeave w.rooms c sid
  let uc2 :=
    match socketUser w sid with
    | some u =>
      if (JMap.get? w.userConversations u).isSome then
        JMap.modify w.userConversations u (fun s => s.erase c)
      else w.userConversations
    | none => w.userConversations
  ({ w with rooms := rooms2, userConversations := uc2 }, [])

/-- The participant loop of the `message:send` handler: skip the sender
(compared against `socket.userId`), emit the message directly to a registered
participant not covered by the room broadcast, and record offline participants
in the Pending Delivery Ledger.  Returns the `deliveredToAnyoneOnline`
contribution, the updated ledger, and the direct emissions in order. -/
def sendParticipants (uo : Option UserId) (usocks : List (UserId × SocketId))
    (roomSockets : List SocketId) (c : ConvId) (m : MsgId) (p : Ledger) :
    List UserId → Bool × Ledger × List Emission
  | [] => (false, p, [])
  | pid :: rest =>
    if some pid = uo then sendParticipants uo usocks roomSockets c m p rest
    else
      match JMap.get? usocks pid with
      | some psid =>
        let r := sendParticipants uo usocks roomSockets c m p rest
        (true, r.2.1,
          (if psid ∈ roomSockets then [] else [Emission.messageNew psid m]) ++ r.2.2)
      | none =>
        sendParticipants uo usocks roomSockets c m (addPending p c m pid) rest

/-- Embeds the `message:send` handler (websocket-server.js lines 138-196):
broadcast `message:new` to the conversation room, compute
`deliveredToAnyoneOnline` from the room membership and the participant loop,
and schedule the single delayed delivered-status broadcast iff that flag is
set. -/
def messageSend (w : World) (sid : SocketId) (d : MsgData) :
    World × List Emission :=
  let roomSockets := (JMap.get? w.rooms d.conversationId).getD []
  let dRoom := roomSockets.any (fun s => decide (s ≠ sid))
  let uo := socketUser w sid
  let r := sendParticipants uo w.userSockets roomSockets d.conversationId d.mid
    w.pending d.participants
  let sched :=
    if dRoom || r.1 then [Emission.scheduledStatus d.conversationId d.mid]
    else []
  ({ w with pending := r.2.1 },
    Emission.messageNew d.conversationId d.mid :: (r.2.2 ++ sched))

/-- Embeds the `message:delivered` handler: pure status relay. -/
def messageDelivered (w : World) (m : MsgId) (c : ConvId) :
    World × List Emission :=
  (w, [Emission.messageStatus c m "delivered"])

/-- Embeds the `message:read` handler: pure status relay. -/
def messageRead (w : World) (m : MsgId) (c : ConvId) : World × List Emission :=
  (w, [Emission.messageStatus c m "read"])

/-- Embeds the `messages:mark-read` handler: one read status per message plus
one unread-count notification. -/
def messagesMarkRead (w : World) (sid : SocketId) (ms : List MsgId)
    (c : ConvId) : World × List Emission :=
  (w, ms.map (fun m => Emission.messageStatus c m "read")
    ++ [Emission.unreadUpdated c (socketUser w sid)])

/-- Embeds the `message:edit` handler: pure relay. -/
def messageEdit (w : World) (m : MsgId) (c : ConvId) (content : String) :
    World × List Emission :=
  (w, [Emission.messageEdited c m content])

/-- Embeds the `message:delete` handler: pure relay. -/
def messageDelete (w : World) (m : MsgId) (c : ConvId) :
    World × List Emission :=
  (w, [Emission.messageDeleted c m])

/-- Embeds the `message:reaction` handler: pure relay. -/
def messageReaction (w : World) (m : MsgId) (c : ConvId) :
    World × List Emission :=
  (w, [Emission.reactionUpdate c m])

/-- Embeds the `call:initiate` handler (websocket-server.js lines 259-269):
look the receiver up in `userSockets` and forward, else silently drop. -/
def callInitiate (w : World) (sid : SocketId) (callId receiverId : String) :
    World × List Emission :=
  match JMap.get? w.userSockets receiverId with
  | some rsid => (w, [Emission.callIncoming rsid callId (socketUser w sid)])
  | none => (w, [])

/-- Embeds the `call:answer` handler. -/
def callAnswer (w : World) (_sid : SocketId) (callId callerId : String) :
    World × List Emission :=
  match JMap.get? w.userSockets callerId with
  | some cs => (w, [Emission.callAnswered cs callId])
  | none => (w, [])

/-- Embeds the `call:ice-candidate` handler. -/
def callIceCandidate (w : World) (sid : SocketId) (targetId : String) :
    World × List Emission :=
  match JMap.get? w.userSockets targetId with
  | some ts => (w, [Emission.callIceCandidate ts (socketUser w sid)])
  | none => (w, [])

/-- Embeds the `call:reject` handler. -/
def callReject (w : World) (_sid : SocketId) (callId callerId : String) :
    World × List Emission :=
  match JMap.get? w.userSockets callerId with
  | some cs => (w, [Emission.callRejected cs callId])
  | none => (w, [])

/-- Embeds the `call:end` handler. -/
def callEnd (w : World) (_sid : SocketId) (callId targetId : String) :
    World × List Emission :=
  match JMap.get? w.userSockets targetId with
  | some ts => (w, [Emission.callEnded ts callId])
  | none => (w, [])

/-- Embeds the `disconnect` handler (websocket-server.js lines 309-321): when
the socket has announced a userId, broadcast last-seen and offline and delete
that userId from `userSockets`, `onlineUsers` and `userConversations`; the
transport then forgets the socket and its room memberships. -/
def disconnectHandler (w : World) (sid : SocketId) (now : Nat) :
    World × List Emission :=
  let r :=
    match socketUser w sid with
    | some u =>
      ({ w with userSockets := JMap.del w.userSockets u,
                onlineUsers := JMap.del w.onlineUsers u,
                userConversations := JMap.del w.userConversations u },
       [Emission.userLastSeen u now, Emission.userStatus u "offline"])
    | none => (w, [])
  ({ r.1 with sockets := JMap.del r.1.sockets sid,
              rooms := roomsDropSocket r.1.rooms sid }, r.2)

/-- The staleness test of the sweeper: `now - userData.lastSeen > STALE_TIMEOUT`. -/
def isStale (now : Nat) (d : UserData) : Bool :=
  decide (STALE_TIMEOUT < now - d.lastSeen)

/-- Embeds one run of the `setInterval` sweeper (websocket-server.js lines
37-61): every stale presence record is deleted together with the registry and
membership entries of the same user.  The JS loop deletes entry by
entry while iterating `onlineUsers`; as a JS map never holds a key twice this
equals filtering each table by the set of stale userIds. -/
def sweepStale (w : World) (now : Nat) : World :=
  let staleIds := (w.onlineUsers.filter (fun e => isStale now e.2)).map Prod.fst
  { w with
    onlineUsers := w.onlineUsers.filter (fun e => !isStale now e.2),
    userSockets := w.userSockets.filter (fun e => !decide (e.1 ∈ staleIds)),
    userConversations :=
      w.userConversations.filter (fun e => !decide (e.1 ∈ staleIds)) }

/-- Every inbound event the server reacts to, including sweeper runs. -/
inductive Event where
  | connect (sid : SocketId)
  | userOnline (sid : SocketId) (uid : UserId) (now : Nat)
  | ping (sid : SocketId) (now : Nat)
  | typingStart (sid : SocketId) (c : ConvId) (u : UserId)
  | typingStop (sid : SocketId) (c : ConvId) (u : UserId)
  | convJoin (sid : SocketId) (c : ConvId)
  | convLeave (sid : SocketId) (c : ConvId)
  | msgSend (sid : SocketId) (d : MsgData)
  | msgDelivered (sid : SocketId) (m : MsgId) (c : ConvId)
  | msgRead (sid : SocketId) (m : MsgId) (c : ConvId)
  | marksRead (sid : SocketId) (ms : List MsgId) (c : ConvId)
  | msgEdit (sid : SocketId) (m : MsgId) (c : ConvId) (content : String)
  | msgDelete (sid : SocketId) (m : MsgId) (c : ConvId)
  | msgReaction (sid : SocketId) (m : MsgId) (c : ConvId)
  | callInitiate (sid : SocketId) (callId receiverId : String)
  | callAnswer (sid : SocketId) (callId callerId : String)
  | callIce (sid : SocketId) (targetId : String)
  | callReject (sid : SocketId) (callId callerId : String)
  | callEnd (sid : SocketId) (callId targetId : String)
  | disconnect (sid : SocketId) (now : Nat)
  | sweep (now : Nat)
deriving DecidableEq, Repr

/-- Dispatch one event to its handler. -/
def stepE (w : World) : Event → World × List Emission
  | .connect sid => (connectHandler w sid, [])
  | .userOnline sid uid now => userOnline w sid uid now
  | .ping sid now => pingHandler w sid now
  | .typingStart _ c u => typingStart w c u
  | .typingStop _ c u => typingStop w c u
  | .convJoin sid c => conversationJoin w sid c
  | .convLeave sid c => conversationLeave w sid c
  | .msgSend sid d => messageSend w sid d
  | .msgDelivered _ m c => messageDelivered w m c
  | .msgRead _ m c => messageRead w m c
  | .marksRead sid ms c => messagesMarkRead w sid ms c
  | .msgEdit _ m c content => messageEdit w m c content
  | .msgDelete _ m c => messageDelete w m c
  | .msgReaction _ m c => messageReaction w m c
  | .callInitiate sid callId receiverId => callInitiate w sid callId receiverId
  | .callAnswer sid callId callerId => callAnswer w sid callId callerId
  | .callIce sid targetId => callIceCandidate w sid targetId
  | .callReject sid callId callerId => callReject w sid callId callerId
  | .callEnd sid callId targetId => callEnd w sid callId targetId
  | .disconnect sid now => disconnectHandler w sid now
  | .sweep now => (sweepStale w now, [])

/-- State reached after one event. -/
def step (w : World) (e : Event) : World :=
  (stepE w e).1

/-- The freshly started server: every table empty. -/
def emptyWorld : World :=
  ⟨[], [], [], [], [], []⟩

/-- State reached by a sequence of events from the fresh server. -/
def run (evs : List Event) : World :=
  evs.foldl step emptyWorld

/-! Specification-level descriptions of the reconciliation passes, written as
single map/filter expressions over the ledger.  They are compared against the
loop-shaped handler embeddings above in the characterization theorems. -/

/-- `pendingUsers.has(socket.userId)` seen as a function of the possibly
missing user binding. -/
def optMem (uo : Option UserId) (l : List UserId) : Bool :=
  match uo with
  | some u => decide (u ∈ l)
  | none => false

/-- Erase the bound user, if any, from an awaiting set. -/
def optErase (uo : Option UserId) (l : List UserId) : List UserId :=
  match uo with
  | some u => l.erase u
  | none => l

/-- What reconciliation does to one message entry: remove the user from the
awaiting set when present and drop the entry when the set became empty. -/
def msgStep (uo : Option UserId) (me : MsgId × List UserId) :
    Option (MsgId × List UserId) :=
  if optMem uo me.2 then
    (if (optErase uo me.2).isEmpty then none
     else some (me.1, optErase uo me.2))
  else some me

/-- The messages of one conversation for which reconciliation reports a
delivery: exactly those whose awaiting set contains the user — whether or not
the set empties. -/
def deliveredNow (uo : Option UserId) (msgs : List (MsgId × List UserId)) :
    List MsgId :=
  (msgs.filter (fun me => optMem uo me.2)).map Prod.fst

/-- The ledger after global reconciliation for `u`: the message map of each
conversation passes through `msgStep`, and emptied conversations are dropped. -/
def ledgerAfterOnline (u : UserId) (p : Ledger) : Ledger :=
  (p.map (fun ce => (ce.1, ce.2.filterMap (msgStep (some u))))).filter
    (fun ce => !ce.2.isEmpty)

/-- The delivered statuses global reconciliation emits: one per conversation
per message whose awaiting set contains `u`, in ledger order. -/
def onlineDeliveredEmits (u : UserId) (p : Ledger) : List Emission :=
  p.flatMap (fun ce => (deliveredNow (some u) ce.2).map
    (fun m => Emission.messageStatus ce.1 m "delivered"))

/-- What conversation-scoped reconciliation leaves at the key of the joined
conversation. -/
def scopedEntryAfter (uo : Option UserId) :
    Option (List (MsgId × List UserId)) → Option (List (MsgId × List UserId))
  | none => none
  | some msgs =>
    let msgs2 := msgs.filterMap (msgStep uo)
    if msgs2.isEmpty then none else some msgs2

/-- The delivered statuses conversation-scoped reconciliation emits. -/
def joinDeliveredEmits (c : ConvId) (uo : Option UserId) (p : Ledger) :
    List Emission :=
  match JMap.get? p c with
  | none => []
  | some msgs =>
    (deliveredNow uo msgs).map (fun m => Emission.messageStatus c m "delivered")

/-- The send-time reachability condition the `message:send` handler actually
implements: some socket other than the sender socket sits in the
conversation room, or some participant whose id differs from the bound id of
the sender is registered in `userSockets`. -/
def reachableForSend (w : World) (sid : SocketId) (d : MsgData) : Bool :=
  ((JMap.get? w.rooms d.conversationId).getD []).any (fun s => decide (s ≠ sid))
  || d.participants.any (fun pid =>
      decide (some pid ≠ socketUser w sid) && (JMap.get? w.userSockets pid).isSome)

/-- Concrete scenario: sender `A` on socket `s1`; a third user `C` — not a
participant — sits in conversation room `c1` on socket `s2`; participant `B`
is offline and nowhere in the room. -/
def c3World : World :=
  { sockets := [("s1", some "A"), ("s2", some "C")],
    rooms := [("c1", ["s1", "s2"])],
    userSockets := [("A", "s1"), ("C", "s2")],
    onlineUsers := [("A", ⟨"s1", 0⟩), ("C", ⟨"s2", 0⟩)],
    userConversations := [("A", []), ("C", ["c1"])],
    pending := [] }

/-- Every conversation entry of a well-formed ledger holds at least one
message (entries are created non-empty and emptied entries are deleted). -/
def LedgerWF (p : Ledger) : Prop :=
  ∀ ce ∈ p, ce.2 ≠ []

/-- Concrete scenario: one connected socket that never announced
`user:online`, while the ledger holds a pending entry. -/
def c10World : World :=
  { sockets := [("s1", none)], rooms := [], userSockets := [],
    onlineUsers := [], userConversations := [],
    pending := [("c1", [("m1", ["B"])])] }

/-- The state invariant tying the Connection Registry to the Presence Store,
together with key uniqueness of the per-user tables. -/
structure WF (w : World) : Prop where
  nus : NodupKeys w.userSockets
  nou : NodupKeys w.onlineUsers
  nuc : NodupKeys w.userConversations
  same : ∀ u, (JMap.get? w.userSockets u).isSome ↔ (JMap.get? w.onlineUsers u).isSome

/-! Basic facts about the JS map and set embedding. -/

namespace JMap

variable {α β : Type} [DecidableEq α]

theorem get?_set_self (l : List (α × β)) (k : α) (v : β) :
    get? (set l k v) k = some v := by
  induction l with
  | nil => simp [set, get?]
  | cons e rest ih =>
    by_cases h : e.1 = k <;> simp [set, get?, h, ih]

theorem get?_set_ne (l : List (α × β)) (k : α) (v : β) (k2 : α) (h : k2 ≠ k) :
    get? (set l k v) k2 = get? l k2 := by
  have h2 : ¬(k = k2) := fun hh => h hh.symm
  induction l with
  | nil => simp [set, get?, h2]
  | cons e rest ih =>
    by_cases he : e.1 = k
    · subst he
      simp [set, get?, h2]
    · by_cases he2 : e.1 = k2 <;> simp [set, get?, he, he2, h, ih]

theorem get?_del_self (l : List (α × β)) (k : α) : get? (del l k) k = none := by
  induction l with
  | nil => simp [del, get?]
  | cons e rest ih =>
    by_cases h : e.1 = k <;> simp_all [del, get?]

theorem get?_del_ne (l : List (α × β)) (k : α) (k2 : α) (h : k2 ≠ k) :
    get? (del l k) k2 = get? l k2 := by
  induction l with
  | nil => simp [del]
  | cons e rest ih =>
    by_cases he : e.1 = k
    · have he2 : ¬(e.1 = k2) := by
        rw [he]
        exact fun hh => h hh.symm
      simp_all [del, get?]
    · by_cases he2 : e.1 = k2 <;> simp_all [del, get?]

theorem get?_modify_self (l : List (α × β)) (k : α) (f : β → β) :
    get? (modify l k f) k = (get? l k).map f := by
  induction l with
  | nil => simp [modify, get?]
  | cons e rest ih =>
    by_cases h : e.1 = k <;> simp [modify, get?, h, ih]

theorem get?_modify_ne (l : List (α × β)) (k : α) (f : β → β) (k2 : α) (h : k2 ≠ k) :
    get? (modify l k f) k2 = get? l k2 := by
  have h2 : ¬(k = k2) := fun hh => h hh.symm
  induction l with
  | nil => simp [modify]
  | cons e rest ih =>
    by_cases he : e.1 = k
    · simp [modify, get?, he, h2]
    · by_cases he2 : e.1 = k2 <;> simp [modify, get?, he, he2, h, ih]

theorem keys_modify (l : List (α × β)) (k : α) (f : β → β) :
    (modify l k f).map Prod.fst = l.map Prod.fst := by
  induction l with
  | nil => simp [modify]
  | cons e rest ih =>
    by_cases h : e.1 = k <;> simp [modify, h, ih]

theorem get?_filter_key (p : α → Bool) (l : List (α × β)) (k : α) :
    get? (l.filter (fun e => p e.1)) k = if p k then get? l k else none := by
  induction l with
  | nil => simp [get?]
  | cons e rest ih =>
    by_cases hk : e.1 = k
    · subst hk
      by_cases hp : p e.1 <;> simp [get?, hp, ih]
    · by_cases hp : p e.1 <;> simp [get?, hp, hk, ih]

theorem get?_filter_key_mem (l : List (α × β)) (s : List α) (k : α) :
    get? (l.filter (fun e => !decide (e.1 ∈ s))) k =
      if k ∈ s then none else get? l k := by
  induction l with
  | nil => simp [get?]
  | cons e rest ih =>
    by_cases hk : e.1 = k
    · subst hk
      by_cases hm : e.1 ∈ s <;> simp [get?, hm, ih]
    · by_cases hm : e.1 ∈ s <;> simp [get?, hm, hk, ih]

theorem get?_eq_none_iff (l : List (α × β)) (k : α) :
    get? l k = none ↔ k ∉ l.map Prod.fst := by
  induction l with
  | nil => simp [get?]
  | cons e rest ih =>
    by_cases h : e.1 = k
    · simp [get?, h]
    · have h2 : ¬(k = e.1) := fun hh => h hh.symm
      simp [get?, h, h2, ih]

theorem get?_mem {l : List (α × β)} {k : α} {v : β} (h : get? l k = some v) :
    (k, v) ∈ l := by
  induction l with
  | nil => simp [get?] at h
  | cons e rest ih =>
    by_cases he : e.1 = k
    · simp [get?, he] at h
      cases e with
      | mk a b =>
        simp at he h
        subst he
        subst h
        exact List.mem_cons_self _ _
    · simp [get?, he] at h
      exact List.mem_cons_of_mem _ (ih h)

theorem mem_keys_set (l : List (α × β)) (k : α) (v : β) (a : α) :
    a ∈ (set l k v).map Prod.fst ↔ a = k ∨ a ∈ l.map Prod.fst := by
  induction l with
  | nil => simp [set]
  | cons e rest ih =>
    by_cases h : e.1 = k
    · subst h
      simp [set]
    · simp [set, h, ih]
      tauto

theorem set_of_get?_eq {l : List (α × β)} {k : α} {v : β} (h : get? l k = some v) :
    set l k v = l := by
  induction l with
  | nil => simp [get?] at h
  | cons e rest ih =>
    by_cases he : e.1 = k
    · simp [get?, he] at h
      cases e with
      | mk a b =>
        simp at he h
        subst he
        subst h
        simp [set]
    · simp [get?, he] at h
      simp [set, he, ih h]

theorem del_of_get?_none {l : List (α × β)} {k : α} (h : get? l k = none) :
    del l k = l := by
  have hnm := (get?_eq_none_iff l k).mp h
  unfold del
  rw [List.filter_eq_self]
  intro e he
  simp only [decide_eq_true_eq]
  intro hek
  exact hnm (List.mem_map.mpr ⟨e, he, hek⟩)

theorem del_del (l : List (α × β)) (k : α) : del (del l k) k = del l k := by
  simp [del, List.filter_filter]

end JMap

theorem nodupKeys_nil {α β : Type} : NodupKeys ([] : List (α × β)) := by
  simp [NodupKeys]

theorem nodupKeys_set {α β : Type} [DecidableEq α] {l : List (α × β)}
    (h : NodupKeys l) (k : α) (v : β) : NodupKeys (JMap.set l k v) := by
  induction l with
  | nil => simp [NodupKeys, JMap.set]
  | cons e rest ih =>
    simp only [NodupKeys, List.map_cons, List.nodup_cons] at h
    by_cases he : e.1 = k
    · subst he
      have hset : JMap.set (e :: rest) e.1 v = (e.1, v) :: rest := by
        simp [JMap.set]
      rw [hset]
      simp only [NodupKeys, List.map_cons, List.nodup_cons]
      exact ⟨h.1, h.2⟩
    · have hrest := ih h.2
      simp only [JMap.set, if_neg he, NodupKeys, List.map_cons, List.nodup_cons]
      refine ⟨?_, hrest⟩
      intro hmem
      rcases (JMap.mem_keys_set rest k v e.1).mp hmem with hk | hr
      · exact he hk
      · exact h.1 hr

theorem nodupKeys_del {α β : Type} [DecidableEq α] {l : List (α × β)}
    (h : NodupKeys l) (k : α) : NodupKeys (JMap.del l k) := by
  exact List.Nodup.sublist (List.Sublist.map Prod.fst (List.filter_sublist l)) h

theorem nodupKeys_modify {α β : Type} [DecidableEq α] {l : List (α × β)}
    (h : NodupKeys l) (k : α) (f : β → β) : NodupKeys (JMap.modify l k f) := by
  unfold NodupKeys
  rw [JMap.keys_modify]
  exact h

theorem nodupKeys_filter {α β : Type} {l : List (α × β)}
    (h : NodupKeys l) (p : α × β → Bool) : NodupKeys (l.filter p) := by
  exact List.Nodup.sublist (List.Sublist.map Prod.fst (List.filter_sublist l)) h

theorem get?_of_mem_nodup {α β : Type} [DecidableEq α] {l : List (α × β)}
    (h : NodupKeys l) {k : α} {v : β} (hm : (k, v) ∈ l) : JMap.get? l k = some v := by
  induction l with
  | nil => simp at hm
  | cons e rest ih =>
    simp only [NodupKeys, List.map_cons, List.nodup_cons] at h
    rcases List.mem_cons.mp hm with he | hrest
    · rw [← he]
      simp [JMap.get?]
    · have hk : ¬(e.1 = k) := by
        intro hek
        apply h.1
        rw [hek]
        exact List.mem_map.mpr ⟨(k, v), hrest, rfl⟩
      simp only [JMap.get?, if_neg hk]
      exact ih h.2 hrest

theorem get?_filter_nodup {α β : Type} [DecidableEq α] {l : List (α × β)}
    (h : NodupKeys l) (p : α × β → Bool) (k : α) :
    JMap.get? (l.filter p) k =
      (JMap.get? l k).bind (fun v => if p (k, v) then some v else none) := by
  induction l with
  | nil => simp [JMap.get?]
  | cons e rest ih =>
    simp only [NodupKeys, List.map_cons, List.nodup_cons] at h
    by_cases hk : e.1 = k
    · have hnone : JMap.get? (rest.filter p) k = none := by
        rw [JMap.get?_eq_none_iff]
        intro hmem
        apply h.1
        rw [hk]
        exact (List.Sublist.map Prod.fst (List.filter_sublist rest)).subset hmem
      cases e with
      | mk a b =>
        simp at hk
        subst hk
        by_cases hp : p (a, b)
        · simp [JMap.get?, hp, List.filter_cons]
        · simp [JMap.get?, hp, List.filter_cons, hnone]
    · by_cases hp : p e <;> simp [JMap.get?, hp, hk, ih h.2, List.filter_cons]

/-! Characterization of the two reconciliation passes. -/

theorem scanMessages_eq (uo : Option UserId) (msgs : List (MsgId × List UserId)) :
    scanMessages uo msgs = (msgs.filterMap (msgStep uo), deliveredNow uo msgs) := by
  induction msgs with
  | nil => simp [scanMessages, deliveredNow]
  | cons me rest ih =>
    cases me with
    | mk m us =>
      cases uo with
      | none =>
        simp [scanMessages, msgStep, optMem, deliveredNow, List.filterMap_cons,
          List.filter_cons, ih]
      | some u =>
        by_cases hm : u ∈ us
        · by_cases he : (us.erase u).isEmpty <;>
            simp [scanMessages, msgStep, optMem, optErase, deliveredNow, hm, he,
              ih, List.filterMap_cons, List.filter_cons]
        · simp [scanMessages, msgStep, optMem, optErase, deliveredNow, hm, ih,
            List.filterMap_cons, List.filter_cons]

theorem processPendingDeliveries_eq (u : UserId) (p : Ledger) :
    processPendingDeliveries u p = (ledgerAfterOnline u p, onlineDeliveredEmits u p) := by
  induction p with
  | nil => simp [processPendingDeliveries, ledgerAfterOnline, onlineDeliveredEmits]
  | cons ce rest ih =>
    cases ce with
    | mk c msgs =>
      by_cases he : (msgs.filterMap (msgStep (some u))).isEmpty <;>
        simp [processPendingDeliveries, scanMessages_eq, ledgerAfterOnline,
          onlineDeliveredEmits, ih, he, List.filter_cons, List.flatMap_cons]

/-- C1 (amended): on `user:online(u)` every awaiting set containing `u` has
`u` removed, a `message:status delivered` is emitted to the conversation group
once per message whose awaiting set contained `u` — per removal, also when
the set is still non-empty afterwards — and emptied message entries and
emptied conversation entries are garbage-collected. -/
theorem userOnline_pending_characterization (w : World) (sid : SocketId)
    (u : UserId) (now : Nat) :
    (userOnline w sid u now).1.pending = ledgerAfterOnline u w.pending ∧
    (userOnline w sid u now).2 =
      Emission.usersOnlineList sid ((JMap.set w.onlineUsers u ⟨sid, now⟩).map Prod.fst)
        :: Emission.userStatus u "online" :: onlineDeliveredEmits u w.pending := by
  constructor
  · simp [userOnline, processPendingDeliveries_eq]
  · simp [userOnline, processPendingDeliveries_eq]

/-- C1 counterexample: in the reachable state where message `m1` of
conversation `c1` still awaits both `B` and `C`, the `user:online("B")`
reconciliation emits a delivered status for `m1` although the awaiting set
`["C"]` is not empty afterwards — the claim predicts no emission here. -/
theorem online_reconciliation_emits_on_nonempty_awaiting :
    (userOnline (run [Event.connect "s1", Event.userOnline "s1" "A" 0,
        Event.msgSend "s1" ⟨"c1", "m1", ["A", "B", "C"]⟩,
        Event.connect "s2"]) "s2" "B" 1).2.count
      (Emission.messageStatus "c1" "m1" "delivered") = 1 ∧
    (userOnline (run [Event.connect "s1", Event.userOnline "s1" "A" 0,
        Event.msgSend "s1" ⟨"c1", "m1", ["A", "B", "C"]⟩,
        Event.connect "s2"]) "s2" "B" 1).1.pending = [("c1", [("m1", ["C"])])] := by
  decide

/-- C4 (amended): `conversation:join` reconciliation is scoped to the joined
conversation — the ledger entry of every other conversation is untouched — and
within it the user is removed from every awaiting set containing them, with
one delivered emission per such message (per removal, not only on the
transition to empty) and garbage collection of emptied entries. -/
theorem conversationJoin_scoped_reconciliation (w : World) (sid : SocketId)
    (c : ConvId) :
    (∀ c2, c2 ≠ c →
      JMap.get? (conversationJoin w sid c).1.pending c2 = JMap.get? w.pending c2) ∧
    JMap.get? (conversationJoin w sid c).1.pending c =
      scopedEntryAfter (socketUser w sid) (JMap.get? w.pending c) ∧
    (conversationJoin w sid c).2 = joinDeliveredEmits c (socketUser w sid) w.pending := by
  have hpend : (conversationJoin w sid c).1.pending =
      (checkPendingDeliveriesForConversation c (socketUser w sid) w.pending).1 := by
    simp [conversationJoin]
  have hem : (conversationJoin w sid c).2 =
      (checkPendingDeliveriesForConversation c (socketUser w sid) w.pending).2 := by
    simp [conversationJoin]
  rw [hpend, hem]
  cases hg : JMap.get? w.pending c with
  | none =>
    simp [checkPendingDeliveriesForConversation, hg, scopedEntryAfter,
      joinDeliveredEmits]
  | some msgs =>
    by_cases he : (msgs.filterMap (msgStep (socketUser w sid))).isEmpty
    · refine ⟨?_, ?_, ?_⟩
      · intro c2 hne
        simp [checkPendingDeliveriesForConversation, hg, scanMessages_eq, he,
          JMap.get?_del_ne _ _ _ hne]
      · simp [checkPendingDeliveriesForConversation, hg, scanMessages_eq, he,
          JMap.get?_del_self, scopedEntryAfter]
      · simp [checkPendingDeliveriesForConversation, hg, scanMessages_eq,
          joinDeliveredEmits]
    · refine ⟨?_, ?_, ?_⟩
      · intro c2 hne
        simp [checkPendingDeliveriesForConversation, hg, scanMessages_eq, he,
          JMap.get?_set_ne _ _ _ _ hne]
      · simp [checkPendingDeliveriesForConversation, hg, scanMessages_eq, he,
          JMap.get?_set_self, scopedEntryAfter]
      · simp [checkPendingDeliveriesForConversation, hg, scanMessages_eq,
          joinDeliveredEmits]

/-- C4 witness: a concrete instantiation of the scoped-reconciliation theorem,
with the frame conjunct applied to a different conversation key. -/
theorem conversationJoin_scoped_reconciliation_witness :
    JMap.get? (conversationJoin
      { sockets := [("s1", some "B")], rooms := [], userSockets := [],
        onlineUsers := [], userConversations := [],
        pending := [("c1", [("m1", ["B"])]), ("c2", [("m2", ["B"])])] }
      "s1" "c1").1.pending "c2" = some [("m2", ["B"])] ∧
    JMap.get? (conversationJoin
      { sockets := [("s1", some "B")], rooms := [], userSockets := [],
        onlineUsers := [], userConversations := [],
        pending := [("c1", [("m1", ["B"])]), ("c2", [("m2", ["B"])])] }
      "s1" "c1").1.pending "c1" = scopedEntryAfter (some "B") (some [("m1", ["B"])]) := by
  constructor
  · have h := (conversationJoin_scoped_reconciliation
      { sockets := [("s1", some "B")], rooms := [], userSockets := [],
        onlineUsers := [], userConversations := [],
        pending := [("c1", [("m1", ["B"])]), ("c2", [("m2", ["B"])])] }
      "s1" "c1").1 "c2" (by decide)
    rw [h]
    decide
  · have h := (conversationJoin_scoped_reconciliation
      { sockets := [("s1", some "B")], rooms := [], userSockets := [],
        onlineUsers := [], userConversations := [],
        pending := [("c1", [("m1", ["B"])]), ("c2", [("m2", ["B"])])] }
      "s1" "c1").2.1
    rw [h]
    decide

/-- C4 counterexample: user `B` is bound to socket `s2` but was evicted from
the registry by the sweeper, so a later send records `B` in the awaiting set
of `m1` next to `C`; a `conversation:join("c1")` by `B` then emits a delivered
status for `m1` although the awaiting set `["C"]` is not empty afterwards —
the claim predicts no emission here. -/
theorem join_reconciliation_emits_on_nonempty_awaiting :
    (conversationJoin (run [Event.connect "s2", Event.userOnline "s2" "B" 0,
        Event.connect "s1", Event.userOnline "s1" "A" 0, Event.sweep 1000000,
        Event.msgSend "s1" ⟨"c1", "m1", ["A", "B", "C"]⟩]) "s2" "c1").2.count
      (Emission.messageStatus "c1" "m1" "delivered") = 1 ∧
    JMap.get? ((conversationJoin (run [Event.connect "s2", Event.userOnline "s2" "B" 0,
        Event.connect "s1", Event.userOnline "s1" "A" 0, Event.sweep 1000000,
        Event.msgSend "s1" ⟨"c1", "m1", ["A", "B", "C"]⟩]) "s2" "c1").1.pending)
      "c1" = some [("m1", ["C"])] := by
  decide

/-! The send-time delivered-status schedule. -/

theorem sendParticipants_flag (uo : Option UserId) (usocks : List (UserId × SocketId))
    (roomSockets : List SocketId) (c : ConvId) (m : MsgId) (ps : List UserId) :
    ∀ p : Ledger, (sendParticipants uo usocks roomSockets c m p ps).1 =
      ps.any (fun pid => decide (some pid ≠ uo) && (JMap.get? usocks pid).isSome) := by
  induction ps with
  | nil =>
    intro p
    simp [sendParticipants]
  | cons pid rest ih =>
    intro p
    by_cases hskip : some pid = uo
    · simp [sendParticipants, hskip, ih p]
    · cases hg : JMap.get? usocks pid with
      | some psid => simp [sendParticipants, hskip, hg, ih p]
      | none => simp [sendParticipants, hskip, hg, ih]

theorem sendParticipants_no_sched (uo : Option UserId)
    (usocks : List (UserId × SocketId)) (roomSockets : List SocketId)
    (c : ConvId) (m : MsgId) (ps : List UserId) (c2 : ConvId) (m2 : MsgId) :
    ∀ p : Ledger, Emission.scheduledStatus c2 m2 ∉
      (sendParticipants uo usocks roomSockets c m p ps).2.2 := by
  induction ps with
  | nil =>
    intro p
    simp [sendParticipants]
  | cons pid rest ih =>
    intro p
    by_cases hskip : some pid = uo
    · simp only [sendParticipants, if_pos hskip]
      exact ih p
    · cases hg : JMap.get? usocks pid with
      | some psid =>
        by_cases hr : psid ∈ roomSockets <;>
          simp [sendParticipants, hskip, hg, hr, ih p]
      | none =>
        simp only [sendParticipants, if_neg hskip, hg]
        exact ih _

/-- C3 (amended): `message:send` schedules the single delayed delivered-status
broadcast iff some socket other than the sender socket sits in the conversation
room — participant or not — or some participant whose id differs from the
bound id of the sender is registered; at most one such status is scheduled per
send, never one per recipient. -/
theorem messageSend_schedules_iff (w : World) (sid : SocketId) (d : MsgData) :
    (messageSend w sid d).2.count
      (Emission.scheduledStatus d.conversationId d.mid) =
      if reachableForSend w sid d then 1 else 0 := by
  have hzero : (sendParticipants (socketUser w sid) w.userSockets
      ((JMap.get? w.rooms d.conversationId).getD []) d.conversationId d.mid
      w.pending d.participants).2.2.count
      (Emission.scheduledStatus d.conversationId d.mid) = 0 :=
    List.count_eq_zero.mpr (sendParticipants_no_sched _ _ _ _ _ _ _ _ _)
  have hflag := sendParticipants_flag (socketUser w sid) w.userSockets
    ((JMap.get? w.rooms d.conversationId).getD []) d.conversationId d.mid
    d.participants w.pending
  simp only [messageSend]
  rw [hflag]
  cases hc : (((JMap.get? w.rooms d.conversationId).getD []).any
        (fun s => decide (s ≠ sid))
      || d.participants.any (fun pid =>
        decide (some pid ≠ socketUser w sid)
          && (JMap.get? w.userSockets pid).isSome))
  · unfold reachableForSend
    rw [hc]
    simp [List.count_cons, List.count_append, hzero]
  · unfold reachableForSend
    rw [hc]
    simp [List.count_cons, List.count_append, hzero]

/-- C3 counterexample: participants are `A` (the sender) and `B`, `B` is
offline and no socket of `B` is in room `c1`; yet because the non-participant
`C` has a socket in the room, the handler schedules a delivered status — the
iff of the claim predicts no status. -/
theorem send_schedules_status_without_reachable_participant :
    (messageSend c3World "s1" ⟨"c1", "m1", ["A", "B"]⟩).2.count
      (Emission.scheduledStatus "c1" "m1") = 1 ∧
    socketUser c3World "s1" = some "A" ∧
    JMap.get? c3World.userSockets "B" = none ∧
    ((JMap.get? c3World.rooms "c1").getD []).all
      (fun s => !(socketUser c3World s == some "B")) = true := by
  decide

/-! The end-to-end offline-delivery scenario. -/

/-- C2: sending `m1` in `c1` with participants `[A, B]` from `A` while `B` is
offline and the ledger is empty records exactly the entry `(c1, m1, [B])`;
a subsequent `user:online` by `B` emits exactly one delivered status for `m1`
and leaves the ledger empty again. -/
theorem offline_send_then_online_delivers (w : World) (sid sid2 : SocketId)
    (a b : UserId) (c1 m1 : String) (now : Nat)
    (hpend : w.pending = [])
    (hb : JMap.get? w.userSockets b = none)
    (hsid : socketUser w sid = some a)
    (hab : a ≠ b) :
    (messageSend w sid ⟨c1, m1, [a, b]⟩).1.pending = [(c1, [(m1, [b])])] ∧
    (userOnline (messageSend w sid ⟨c1, m1, [a, b]⟩).1 sid2 b now).2.count
      (Emission.messageStatus c1 m1 "delivered") = 1 ∧
    (userOnline (messageSend w sid ⟨c1, m1, [a, b]⟩).1 sid2 b now).1.pending = [] := by
  have hba : ¬(some b = some a) := by
    simp only [Option.some.injEq]
    exact fun hh => hab hh.symm
  have h1 : (messageSend w sid ⟨c1, m1, [a, b]⟩).1.pending = [(c1, [(m1, [b])])] := by
    simp [messageSend, sendParticipants, hsid, hba, hb, hpend, addPending,
      JMap.set, JMap.get?, JSet.insert]
  have hchar := userOnline_pending_characterization
    (messageSend w sid ⟨c1, m1, [a, b]⟩).1 sid2 b now
  refine ⟨h1, ?_, ?_⟩
  · rw [hchar.2, h1]
    simp [onlineDeliveredEmits, deliveredNow, optMem, List.count_cons]
  · rw [hchar.1, h1]
    simp [ledgerAfterOnline, msgStep, optMem, optErase]

/-- C2 witness: the scenario run from the fresh server with `A` on `s1`. -/
theorem offline_send_then_online_delivers_witness :
    (run [Event.connect "s1", Event.userOnline "s1" "A" 0]).pending = [] ∧
    JMap.get? (run [Event.connect "s1", Event.userOnline "s1" "A" 0]).userSockets
      "B" = none ∧
    socketUser (run [Event.connect "s1", Event.userOnline "s1" "A" 0]) "s1" =
      some "A" ∧
    ((messageSend (run [Event.connect "s1", Event.userOnline "s1" "A" 0]) "s1"
        ⟨"c1", "m1", ["A", "B"]⟩).1.pending = [("c1", [("m1", ["B"])])] ∧
      (userOnline (messageSend (run [Event.connect "s1", Event.userOnline "s1" "A" 0])
          "s1" ⟨"c1", "m1", ["A", "B"]⟩).1 "s2" "B" 5).2.count
        (Emission.messageStatus "c1" "m1" "delivered") = 1 ∧
      (userOnline (messageSend (run [Event.connect "s1", Event.userOnline "s1" "A" 0])
          "s1" ⟨"c1", "m1", ["A", "B"]⟩).1 "s2" "B" 5).1.pending = []) := by
  refine ⟨by decide, by decide, by decide, ?_⟩
  exact offline_send_then_online_delivers _ "s1" "s2" "A" "B" "c1" "m1" 5
    (by decide) (by decide) (by decide) (by decide)

/-! Preservation of the registry/presence invariant along every event. -/

theorem wf_empty : WF emptyWorld := by
  refine ⟨?_, ?_, ?_, ?_⟩ <;> simp [emptyWorld, NodupKeys, JMap.get?]

theorem mem_staleIds_iff {l : List (UserId × UserData)} (h : NodupKeys l)
    (now : Nat) (u : UserId) :
    u ∈ (l.filter (fun e => isStale now e.2)).map Prod.fst ↔
      ∃ d, JMap.get? l u = some d ∧ isStale now d := by
  constructor
  · intro hm
    rcases List.mem_map.mp hm with ⟨e, he, hfst⟩
    rcases List.mem_filter.mp he with ⟨hel, hstale⟩
    refine ⟨e.2, ?_, hstale⟩
    cases e with
    | mk a b =>
      simp at hfst
      subst hfst
      exact get?_of_mem_nodup h hel
  · rintro ⟨d, hg, hs⟩
    exact List.mem_map.mpr ⟨(u, d), List.mem_filter.mpr ⟨JMap.get?_mem hg, hs⟩, rfl⟩

theorem wf_sweep {w : World} (h : WF w) (now : Nat) : WF (sweepStale w now) := by
  refine ⟨nodupKeys_filter h.nus _, nodupKeys_filter h.nou _,
    nodupKeys_filter h.nuc _, ?_⟩
  intro u
  simp only [sweepStale]
  rw [JMap.get?_filter_key_mem, get?_filter_nodup h.nou]
  cases hg : JMap.get? w.onlineUsers u with
  | none =>
    have hus : JMap.get? w.userSockets u = none := by
      cases hx : JMap.get? w.userSockets u with
      | none => rfl
      | some s =>
        have hsame := h.same u
        simp [hx, hg] at hsame
    simp [hus, hg]
  | some d =>
    by_cases hs : isStale now d
    · have hmem : u ∈ ((w.onlineUsers.filter (fun e => isStale now e.2)).map Prod.fst) :=
        (mem_staleIds_iff h.nou now u).mpr ⟨d, hg, hs⟩
      simp [hg, hs, hmem]
    · have hmem : u ∉ ((w.onlineUsers.filter (fun e => isStale now e.2)).map Prod.fst) := by
        intro hm
        rcases (mem_staleIds_iff h.nou now u).mp hm with ⟨d2, hg2, hs2⟩
        rw [hg] at hg2
        cases hg2
        exact hs hs2
      have husome : (JMap.get? w.userSockets u).isSome := by
        rw [h.same u]
        simp [hg]
      simp [hg, hs, hmem, husome]

theorem wf_step {w : World} (h : WF w) (e : Event) : WF (step w e) := by
  cases e with
  | connect sid => exact ⟨h.nus, h.nou, h.nuc, h.same⟩
  | userOnline sid uid now =>
    refine ⟨?_, ?_, ?_, ?_⟩
    · simpa [step, stepE, userOnline] using nodupKeys_set h.nus uid sid
    · simpa [step, stepE, userOnline] using nodupKeys_set h.nou uid ⟨sid, now⟩
    · by_cases hc : (JMap.get? w.userConversations uid).isSome
      · simpa [step, stepE, userOnline, hc] using h.nuc
      · simpa [step, stepE, userOnline, hc] using nodupKeys_set h.nuc uid []
    · intro u
      by_cases hu : u = uid
      · subst hu
        simp [step, stepE, userOnline, JMap.get?_set_self]
      · simp [step, stepE, userOnline, JMap.get?_set_ne w.userSockets uid sid u hu,
          JMap.get?_set_ne w.onlineUsers uid ⟨sid, now⟩ u hu, h.same u]
  | ping sid now =>
    simp only [step, stepE, pingHandler]
    cases hsu : socketUser w sid with
    | none => exact ⟨h.nus, h.nou, h.nuc, h.same⟩
    | some u =>
      by_cases ho : (JMap.get? w.onlineUsers u).isSome
      · simp only [ho, if_true]
        refine ⟨h.nus, nodupKeys_modify h.nou u _, h.nuc, ?_⟩
        intro v
        by_cases hv : v = u
        · subst hv
          simp [JMap.get?_modify_self, h.same v, Option.isSome_map]
        · simp [JMap.get?_modify_ne w.onlineUsers u _ v hv, h.same v]
      · simp only [ho, if_false]
        exact ⟨h.nus, h.nou, h.nuc, h.same⟩
  | typingStart sid c u => exact ⟨h.nus, h.nou, h.nuc, h.same⟩
  | typingStop sid c u => exact ⟨h.nus, h.nou, h.nuc, h.same⟩
  | convJoin sid c =>
    simp only [step, stepE, conversationJoin]
    cases hsu : socketUser w sid with
    | none => exact ⟨h.nus, h.nou, h.nuc, h.same⟩
    | some u =>
      by_cases hc : (JMap.get? w.userConversations u).isSome
      · simp only [hc, if_true]
        exact ⟨h.nus, h.nou, nodupKeys_modify h.nuc u _, h.same⟩
      · simp only [hc, if_false]
        exact ⟨h.nus, h.nou, h.nuc, h.same⟩
  | convLeave sid c =>
    simp only [step, stepE, conversationLeave]
    cases hsu : socketUser w sid with
    | none => exact ⟨h.nus, h.nou, h.nuc, h.same⟩
    | some u =>
      by_cases hc : (JMap.get? w.userConversations u).isSome
      · simp only [hc, if_true]
        exact ⟨h.nus, h.nou, nodupKeys_modify h.nuc u _, h.same⟩
      · simp only [hc, if_false]
        exact ⟨h.nus, h.nou, h.nuc, h.same⟩
  | msgSend sid d => exact ⟨h.nus, h.nou, h.nuc, h.same⟩
  | msgDelivered sid m c => exact ⟨h.nus, h.nou, h.nuc, h.same⟩
  | msgRead sid m c => exact ⟨h.nus, h.nou, h.nuc, h.same⟩
  | marksRead sid ms c => exact ⟨h.nus, h.nou, h.nuc, h.same⟩
  | msgEdit sid m c content => exact ⟨h.nus, h.nou, h.nuc, h.same⟩
  | msgDelete sid m c => exact ⟨h.nus, h.nou, h.nuc, h.same⟩
  | msgReaction sid m c => exact ⟨h.nus, h.nou, h.nuc, h.same⟩
  | callInitiate sid cid rid =>
    simp only [step, stepE, callInitiate]
    cases hg : JMap.get? w.userSockets rid <;>
      exact ⟨h.nus, h.nou, h.nuc, h.same⟩
  | callAnswer sid cid rid =>
    simp only [step, stepE, callAnswer]
    cases hg : JMap.get? w.userSockets rid <;>
      exact ⟨h.nus, h.nou, h.nuc, h.same⟩
  | callIce sid tid =>
    simp only [step, stepE, callIceCandidate]
    cases hg : JMap.get? w.userSockets tid <;>
      exact ⟨h.nus, h.nou, h.nuc, h.same⟩
  | callReject sid cid rid =>
    simp only [step, stepE, callReject]
    cases hg : JMap.get? w.userSockets rid <;>
      exact ⟨h.nus, h.nou, h.nuc, h.same⟩
  | callEnd sid cid tid =>
    simp only [step, stepE, callEnd]
    cases hg : JMap.get? w.userSockets tid <;>
      exact ⟨h.nus, h.nou, h.nuc, h.same⟩
  | disconnect sid now =>
    simp only [step, stepE, disconnectHandler]
    cases hsu : socketUser w sid with
    | none => exact ⟨h.nus, h.nou, h.nuc, h.same⟩
    | some u =>
      refine ⟨nodupKeys_del h.nus u, nodupKeys_del h.nou u, nodupKeys_del h.nuc u, ?_⟩
      intro v
      by_cases hv : v = u
      · subst hv
        simp [JMap.get?_del_self]
      · simp [JMap.get?_del_ne w.userSockets u v hv,
          JMap.get?_del_ne w.onlineUsers u v hv, h.same v]
  | sweep now => exact wf_sweep h now

theorem wf_run (evs : List Event) : WF (run evs) := by
  suffices hgen : ∀ w, WF w → WF (evs.foldl step w) by
    exact hgen emptyWorld wf_empty
  induction evs with
  | nil =>
    intro w hw
    simpa using hw
  | cons e rest ih =>
    intro w hw
    simpa using ih (step w e) (wf_step hw e)

/-- C5: in every reachable state a user sits in the Connection Registry iff
they sit in the Presence Store, and whenever the sweeper evicts a stale
presence record the same pass also removes the registry entry and
membership set of that user. -/
theorem presence_registry_invariant (evs : List Event) :
    (∀ u, (JMap.get? (run evs).userSockets u).isSome ↔
      (JMap.get? (run evs).onlineUsers u).isSome) ∧
    (∀ (now : Nat) (u : UserId) (d : UserData),
      JMap.get? (run evs).onlineUsers u = some d →
      STALE_TIMEOUT < now - d.lastSeen →
      JMap.get? (sweepStale (run evs) now).userSockets u = none ∧
      JMap.get? (sweepStale (run evs) now).onlineUsers u = none ∧
      JMap.get? (sweepStale (run evs) now).userConversations u = none) := by
  have hwf := wf_run evs
  refine ⟨hwf.same, ?_⟩
  intro now u d hg hstale
  have hs : isStale now d := by
    simp [isStale, hstale]
  have hmem : u ∈ (((run evs).onlineUsers.filter
      (fun e => isStale now e.2)).map Prod.fst) :=
    (mem_staleIds_iff hwf.nou now u).mpr ⟨d, hg, hs⟩
  refine ⟨?_, ?_, ?_⟩
  · simp only [sweepStale]
    rw [JMap.get?_filter_key_mem]
    simp [hmem]
  · simp only [sweepStale]
    rw [get?_filter_nodup hwf.nou]
    simp [hg, hs]
  · simp only [sweepStale]
    rw [JMap.get?_filter_key_mem]
    simp [hmem]

/-- C5 witness: user `A`, registered at time 0, swept at a fabricated time
beyond the staleness threshold. -/
theorem presence_registry_invariant_witness :
    JMap.get? (run [Event.connect "s1", Event.userOnline "s1" "A" 0]).onlineUsers
      "A" = some ⟨"s1", 0⟩ ∧
    STALE_TIMEOUT < 10000000 - (0 : Nat) ∧
    (JMap.get? (sweepStale (run [Event.connect "s1", Event.userOnline "s1" "A" 0])
        10000000).userSockets "A" = none ∧
      JMap.get? (sweepStale (run [Event.connect "s1", Event.userOnline "s1" "A" 0])
        10000000).onlineUsers "A" = none ∧
      JMap.get? (sweepStale (run [Event.connect "s1", Event.userOnline "s1" "A" 0])
        10000000).userConversations "A" = none) := by
  refine ⟨by decide, by decide, ?_⟩
  exact (presence_registry_invariant [Event.connect "s1", Event.userOnline "s1" "A" 0]).2
    10000000 "A" ⟨"s1", 0⟩ (by decide) (by decide)

/-- C6: at most one connection handle per user identity — the registry keys
stay duplicate-free in every reachable state; `user:online` overwrites the
registry entry unconditionally (last write wins); and removing an absent
registry entry is an idempotent no-op. -/
theorem registry_last_write_wins :
    (∀ evs : List Event, NodupKeys (run evs).userSockets) ∧
    (∀ (w : World) (sid : SocketId) (u : UserId) (now : Nat),
      JMap.get? (userOnline w sid u now).1.userSockets u = some sid) ∧
    (∀ (l : List (UserId × SocketId)) (u : UserId),
      JMap.get? l u = none → JMap.del l u = l) ∧
    (∀ (l : List (UserId × SocketId)) (u : UserId),
      JMap.del (JMap.del l u) u = JMap.del l u) := by
  refine ⟨fun evs => (wf_run evs).nus, ?_, ?_, ?_⟩
  · intro w sid u now
    simp [userOnline, JMap.get?_set_self]
  · intro l u h
    exact JMap.del_of_get?_none h
  · intro l u
    exact JMap.del_del l u

/-- C6 witness: deleting the absent key `B` leaves the registry untouched. -/
theorem registry_last_write_wins_witness :
    JMap.get? ([("A", "s0")] : List (UserId × SocketId)) "B" = none ∧
    JMap.del ([("A", "s0")] : List (UserId × SocketId)) "B" = [("A", "s0")] := by
  refine ⟨by decide, ?_⟩
  exact registry_last_write_wins.2.2.1 [("A", "s0")] "B" (by decide)

/-- C7 counterexample: `A` joins `c1` on socket `s1`, then re-announces
`user:online` from a fresh socket `s2` before `s1` disconnects (device
takeover); the membership set of the replacement session still holds `c1`,
inherited from the superseded session — the claim predicts it is rebuilt
empty. -/
theorem takeover_inherits_membership :
    JMap.get? (run [Event.connect "s1", Event.userOnline "s1" "A" 0,
      Event.convJoin "s1" "c1", Event.connect "s2",
      Event.userOnline "s2" "A" 1]).userConversations "A" = some ["c1"] ∧
    (["c1"] : List ConvId) ≠ [] := by
  decide

/-- C7 (amended): `user:online` keeps an existing membership entry unchanged —
so a takeover announced before the disconnect of the superseded socket inherits
the set of the old session — and creates the empty set only when no entry exists;
an explicit disconnect of the bound socket deletes the entry, so membership
is rebuilt empty only across a full teardown. -/
theorem membership_reset_only_when_absent (w : World) (sid : SocketId)
    (u : UserId) (now : Nat) :
    JMap.get? (userOnline w sid u now).1.userConversations u =
      some ((JMap.get? w.userConversations u).getD []) ∧
    (∀ v, v ≠ u → JMap.get? (userOnline w sid u now).1.userConversations v =
      JMap.get? w.userConversations v) ∧
    (socketUser w sid = some u →
      JMap.get? (disconnectHandler w sid now).1.userConversations u = none) := by
  refine ⟨?_, ?_, ?_⟩
  · cases hc : JMap.get? w.userConversations u with
    | none => simp [userOnline, hc, JMap.get?_set_self]
    | some s => simp [userOnline, hc]
  · intro v hv
    cases hc : JMap.get? w.userConversations u with
    | none => simp [userOnline, hc, JMap.get?_set_ne w.userConversations u [] v hv]
    | some s => simp [userOnline, hc]
  · intro hsu
    simp [disconnectHandler, hsu, JMap.get?_del_self]

/-- C7 witness: the takeover state, with the inherited entry made explicit
and the frame part applied to an unrelated user. -/
theorem membership_reset_only_when_absent_witness :
    JMap.get? (userOnline (run [Event.connect "s1", Event.userOnline "s1" "A" 0,
      Event.convJoin "s1" "c1", Event.connect "s2"]) "s2" "A" 1).1.userConversations
      "A" = some ["c1"] ∧
    JMap.get? (userOnline (run [Event.connect "s1", Event.userOnline "s1" "A" 0,
      Event.convJoin "s1" "c1", Event.connect "s2"]) "s2" "A" 1).1.userConversations
      "B" = JMap.get? (run [Event.connect "s1", Event.userOnline "s1" "A" 0,
      Event.convJoin "s1" "c1", Event.connect "s2"]).userConversations "B" := by
  constructor
  · have h := (membership_reset_only_when_absent
      (run [Event.connect "s1", Event.userOnline "s1" "A" 0,
        Event.convJoin "s1" "c1", Event.connect "s2"]) "s2" "A" 1).1
    rw [h]
    decide
  · exact (membership_reset_only_when_absent
      (run [Event.connect "s1", Event.userOnline "s1" "A" 0,
        Event.convJoin "s1" "c1", Event.connect "s2"]) "s2" "A" 1).2.1 "B" (by decide)

/-- C8: a call-signaling event whose target userId is not registered is
silently dropped: the handler returns the state unchanged — all four tables
included — and emits nothing. -/
theorem call_signaling_unregistered_noop (w : World) (sid : SocketId)
    (cid t : String) (h : JMap.get? w.userSockets t = none) :
    callInitiate w sid cid t = (w, []) ∧
    callAnswer w sid cid t = (w, []) ∧
    callIceCandidate w sid t = (w, []) ∧
    callReject w sid cid t = (w, []) ∧
    callEnd w sid cid t = (w, []) := by
  refine ⟨?_, ?_, ?_, ?_, ?_⟩ <;>
    simp [callInitiate, callAnswer, callIceCandidate, callReject, callEnd, h]

/-- C8 witness: calling an unknown target from the fresh server. -/
theorem call_signaling_unregistered_noop_witness :
    JMap.get? emptyWorld.userSockets "Z" = none ∧
    callInitiate emptyWorld "s1" "call1" "Z" = (emptyWorld, []) := by
  refine ⟨by decide, ?_⟩
  exact (call_signaling_unregistered_noop emptyWorld "s1" "call1" "Z" (by decide)).1

/-- C9: the disconnect handler tears state down by user identity, not by
connection identity — whenever the disconnecting socket has announced `u`,
the entries of `u` in the Connection Registry, Presence Store and Membership
Directory are gone afterwards, also when `u` had since re-registered on a
newer socket, whose session is thereby destroyed. -/
theorem disconnect_tears_down_by_user_identity (w : World) (sid : SocketId)
    (u : UserId) (now : Nat) (h : socketUser w sid = some u) :
    JMap.get? (disconnectHandler w sid now).1.userSockets u = none ∧
    JMap.get? (disconnectHandler w sid now).1.onlineUsers u = none ∧
    JMap.get? (disconnectHandler w sid now).1.userConversations u = none := by
  refine ⟨?_, ?_, ?_⟩ <;> simp [disconnectHandler, h, JMap.get?_del_self]

/-- C9 witness: the superseded socket `s1` disconnects after `A` re-registered
on `s2`, and the registry entry of the replacement session is torn down. -/
theorem disconnect_tears_down_by_user_identity_witness :
    socketUser (run [Event.connect "s1", Event.userOnline "s1" "A" 0,
      Event.connect "s2", Event.userOnline "s2" "A" 1]) "s1" = some "A" ∧
    JMap.get? (run [Event.connect "s1", Event.userOnline "s1" "A" 0,
      Event.connect "s2", Event.userOnline "s2" "A" 1]).userSockets "A" = some "s2" ∧
    (JMap.get? (disconnectHandler (run [Event.connect "s1",
        Event.userOnline "s1" "A" 0, Event.connect "s2",
        Event.userOnline "s2" "A" 1]) "s1" 2).1.userSockets "A" = none ∧
      JMap.get? (disconnectHandler (run [Event.connect "s1",
        Event.userOnline "s1" "A" 0, Event.connect "s2",
        Event.userOnline "s2" "A" 1]) "s1" 2).1.onlineUsers "A" = none ∧
      JMap.get? (disconnectHandler (run [Event.connect "s1",
        Event.userOnline "s1" "A" 0, Event.connect "s2",
        Event.userOnline "s2" "A" 1]) "s1" 2).1.userConversations "A" = none) := by
  refine ⟨by decide, by decide, ?_⟩
  exact disconnect_tears_down_by_user_identity (run [Event.connect "s1",
    Event.userOnline "s1" "A" 0, Event.connect "s2",
    Event.userOnline "s2" "A" 1]) "s1" "A" 2 (by decide)

/-! The ledger never holds an empty conversation entry: entries are created
with a message inside and deleted as soon as they empty.  This justifies the
well-formedness hypothesis of the unbound-join theorem below. -/

theorem mem_set_cases {α β : Type} [DecidableEq α] {l : List (α × β)} {k : α}
    {v : β} {x : α × β} (h : x ∈ JMap.set l k v) : x = (k, v) ∨ x ∈ l := by
  induction l with
  | nil => simpa [JMap.set] using h
  | cons e rest ih =>
    by_cases he : e.1 = k
    · subst he
      rcases List.mem_cons.mp (by simpa [JMap.set] using h) with h1 | h2
      · left
        exact h1
      · right
        exact List.mem_cons_of_mem _ h2
    · rcases List.mem_cons.mp (by simpa [JMap.set, he] using h) with h1 | h2
      · right
        rw [h1]
        exact List.mem_cons_self _ _
      · rcases ih h2 with h3 | h4
        · left
          exact h3
        · right
          exact List.mem_cons_of_mem _ h4

theorem set_ne_nil {α β : Type} [DecidableEq α] (l : List (α × β)) (k : α)
    (v : β) : JMap.set l k v ≠ [] := by
  cases l with
  | nil => simp [JMap.set]
  | cons e rest =>
    simp only [JMap.set]
    split <;> simp

theorem ledgerWF_addPending {p : Ledger} (h : LedgerWF p) (c : ConvId)
    (m : MsgId) (pid : UserId) : LedgerWF (addPending p c m pid) := by
  intro ce hce
  rcases mem_set_cases hce with h1 | h2
  · rw [h1]
    exact set_ne_nil _ _ _
  · exact h ce h2

theorem ledgerWF_sendParticipants (uo : Option UserId)
    (usocks : List (UserId × SocketId)) (roomSockets : List SocketId)
    (c : ConvId) (m : MsgId) (ps : List UserId) :
    ∀ p : Ledger, LedgerWF p →
      LedgerWF (sendParticipants uo usocks roomSockets c m p ps).2.1 := by
  induction ps with
  | nil =>
    intro p h
    simpa [sendParticipants] using h
  | cons pid rest ih =>
    intro p h
    by_cases hskip : some pid = uo
    · simp only [sendParticipants, if_pos hskip]
      exact ih p h
    · cases hg : JMap.get? usocks pid with
      | some psid =>
        simp only [sendParticipants, if_neg hskip, hg]
        exact ih p h
      | none =>
        simp only [sendParticipants, if_neg hskip, hg]
        exact ih _ (ledgerWF_addPending h c m pid)

theorem ledgerWF_processPending (u : UserId) (p : Ledger) :
    LedgerWF (processPendingDeliveries u p).1 := by
  induction p with
  | nil =>
    intro ce hce
    simp [processPendingDeliveries] at hce
  | cons ce0 rest ih =>
    cases ce0 with
    | mk c msgs =>
      by_cases he : (scanMessages (some u) msgs).1.isEmpty
      · intro ce hce
        simp only [processPendingDeliveries, if_pos he] at hce
        exact ih ce hce
      · intro ce hce
        simp only [processPendingDeliveries, if_neg he] at hce
        rcases List.mem_cons.mp hce with h1 | h2
        · rw [h1]
          intro hnil
          apply he
          have hs : (scanMessages (some u) msgs).1 = [] := hnil
          simp [hs]
        · exact ih ce h2

theorem ledgerWF_checkPending {p : Ledger} (h : LedgerWF p) (c : ConvId)
    (uo : Option UserId) :
    LedgerWF (checkPendingDeliveriesForConversation c uo p).1 := by
  cases hg : JMap.get? p c with
  | none =>
    simpa [checkPendingDeliveriesForConversation, hg] using h
  | some msgs =>
    by_cases he : (scanMessages uo msgs).1.isEmpty
    · intro ce hce
      simp only [checkPendingDeliveriesForConversation, hg, if_pos he] at hce
      exact h ce (List.mem_of_mem_filter hce)
    · intro ce hce
      simp only [checkPendingDeliveriesForConversation, hg, if_neg he] at hce
      rcases mem_set_cases hce with h1 | h2
      · rw [h1]
        intro hnil
        apply he
        have hs : (scanMessages uo msgs).1 = [] := hnil
        simp [hs]
      · exact h ce h2

theorem ledgerWF_step {w : World} (h : LedgerWF w.pending) (e : Event) :
    LedgerWF (step w e).pending := by
  cases e with
  | connect sid => exact h
  | userOnline sid uid now =>
    simpa [step, stepE, userOnline] using ledgerWF_processPending uid w.pending
  | ping sid now =>
    simp only [step, stepE, pingHandler]
    cases socketUser w sid with
    | none => exact h
    | some u =>
      by_cases ho : (JMap.get? w.onlineUsers u).isSome <;> simp [ho] <;> exact h
  | typingStart sid c u => exact h
  | typingStop sid c u => exact h
  | convJoin sid c =>
    simpa [step, stepE, conversationJoin] using
      ledgerWF_checkPending h c (socketUser w sid)
  | convLeave sid c =>
    simp only [step, stepE, conversationLeave]
    exact h
  | msgSend sid d =>
    simpa [step, stepE, messageSend] using
      ledgerWF_sendParticipants (socketUser w sid) w.userSockets
        ((JMap.get? w.rooms d.conversationId).getD []) d.conversationId d.mid
        d.participants w.pending h
  | msgDelivered sid m c => exact h
  | msgRead sid m c => exact h
  | marksRead sid ms c => exact h
  | msgEdit sid m c content => exact h
  | msgDelete sid m c => exact h
  | msgReaction sid m c => exact h
  | callInitiate sid cid rid =>
    simp only [step, stepE, callInitiate]
    cases JMap.get? w.userSockets rid <;> exact h
  | callAnswer sid cid rid =>
    simp only [step, stepE, callAnswer]
    cases JMap.get? w.userSockets rid <;> exact h
  | callIce sid tid =>
    simp only [step, stepE, callIceCandidate]
    cases JMap.get? w.userSockets tid <;> exact h
  | callReject sid cid rid =>
    simp only [step, stepE, callReject]
    cases JMap.get? w.userSockets rid <;> exact h
  | callEnd sid cid tid =>
    simp only [step, stepE, callEnd]
    cases JMap.get? w.userSockets tid <;> exact h
  | disconnect sid now =>
    simp only [step, stepE, disconnectHandler]
    cases socketUser w sid <;> exact h
  | sweep now => exact h

theorem ledgerWF_run (evs : List Event) : LedgerWF (run evs).pending := by
  suffices hgen : ∀ w, LedgerWF w.pending → LedgerWF (evs.foldl step w).pending by
    exact hgen emptyWorld (by intro ce hce; simp [emptyWorld] at hce)
  induction evs with
  | nil =>
    intro w hw
    simpa using hw
  | cons e rest ih =>
    intro w hw
    simpa using ih (step w e) (ledgerWF_step hw e)

theorem scanMessages_none (msgs : List (MsgId × List UserId)) :
    scanMessages none msgs = (msgs, []) := by
  induction msgs with
  | nil => simp [scanMessages]
  | cons me rest ih =>
    cases me
    simp [scanMessages, ih]

/-- C10: a `conversation:join` from a socket that never announced
`user:online` leaves the Membership Directory and the Pending Delivery Ledger
unchanged and emits no delivery status — given that every ledger conversation
entry is non-empty, as in every reachable state. -/
theorem join_without_identity_noop (w : World) (sid : SocketId) (c : ConvId)
    (hu : socketUser w sid = none) (hwf : LedgerWF w.pending) :
    (conversationJoin w sid c).1.userConversations = w.userConversations ∧
    (conversationJoin w sid c).1.pending = w.pending ∧
    (conversationJoin w sid c).2 = [] := by
  have hcheck : checkPendingDeliveriesForConversation c none w.pending =
      (w.pending, []) := by
    cases hg : JMap.get? w.pending c with
    | none => simp [checkPendingDeliveriesForConversation, hg]
    | some msgs =>
      have hne : msgs ≠ [] := hwf (c, msgs) (JMap.get?_mem hg)
      have hni : msgs.isEmpty = false := by
        cases msgs with
        | nil => exact absurd rfl hne
        | cons a l => rfl
      simp [checkPendingDeliveriesForConversation, hg, scanMessages_none, hni,
        JMap.set_of_get?_eq hg]
  refine ⟨?_, ?_, ?_⟩ <;> simp [conversationJoin, hu, hcheck]

/-- C10 witness: an unbound socket joins `c1` while the ledger holds a
pending entry there; nothing changes and nothing is emitted. -/
theorem join_without_identity_noop_witness :
    socketUser c10World "s1" = none ∧
    LedgerWF c10World.pending ∧
    ((conversationJoin c10World "s1" "c1").1.userConversations =
        c10World.userConversations ∧
      (conversationJoin c10World "s1" "c1").1.pending = c10World.pending ∧
      (conversationJoin c10World "s1" "c1").2 = []) := by
  refine ⟨by decide, by unfold LedgerWF c10World; decide, ?_⟩
  exact join_without_identity_noop c10World "s1" "c1" (by decide)
    (by unfold LedgerWF c10World; decide)

end Chatly
